import Mathlib

/-!
Verification development for the LinguaScrape scraping core.

Python strings are modelled as Lean `String`s, and the string operations the
code uses (`str.lower`, slicing, `str.startswith`, `str.endswith`, the `in`
substring test, `str.strip`, `str.split`) are given explicit executable
models over the underlying character list.  Regex pattern matching
(`re.Pattern.search`) is modelled as an abstract pure predicate
`String → Bool`, one per compiled pattern in the source.
-/

/-- Model of Python `str.lower` (the source only feeds it ASCII links). -/
def pyLower (s : String) : String := ⟨s.data.map Char.toLower⟩

/-- Model of Python slicing `s[n:]`. -/
def pySlice (s : String) (n : Nat) : String := ⟨s.data.drop n⟩

/-- Model of Python `s.startswith(p)`. -/
def pyStartswith (s p : String) : Bool := decide (p.data <+: s.data)

/-- Model of Python `s.endswith(p)`. -/
def pyEndswith (s p : String) : Bool := decide (p.data <:+ s.data)

/-- Model of Python `p in s` (substring containment, also `re.search` of a
literal pattern). -/
def pyIn (p s : String) : Bool := decide (p.data <:+: s.data)

/-- Model of Python `str.strip`: drop leading and trailing whitespace. -/
def pyStrip (s : String) : String :=
  ⟨(((s.data.dropWhile Char.isWhitespace).reverse).dropWhile Char.isWhitespace).reverse⟩

/-- Splits a character list at every occurrence of `sep`, Python
`str.split(sep)` semantics (the empty list yields one empty chunk). -/
def pySplitChar (sep : Char) : List Char → List (List Char)
  | [] => [[]]
  | c :: cs =>
    match pySplitChar sep cs, decide (c = sep) with
    | r, true => [] :: r
    | [], false => [[c]]
    | h :: t, false => (c :: h) :: t

/-- Model of Python `s.split(sep)` for a one-character separator. -/
def pySplit (s : String) (sep : Char) : List String :=
  (pySplitChar sep s.data).map (fun l => ⟨l⟩)

/-- Keep-first-occurrence deduplication with an accumulator of already seen
keys: the model of Python `OrderedDict.fromkeys` (and of pandas
`Series.unique`). -/
def dedupKeepFirstAux (seen : List String) : List String → List String
  | [] => []
  | x :: xs =>
    if x ∈ seen then dedupKeepFirstAux seen xs
    else x :: dedupKeepFirstAux (x :: seen) xs

/-- Keep-first-occurrence deduplication. -/
def dedupKeepFirst (l : List String) : List String := dedupKeepFirstAux [] l

namespace FileProcessing

/-- The per-link step of the loop body of `_preprocess_links`
(src/file_processing.py): links ending in `.pdf`, `rss=1` or `atom=1` are
skipped, then exactly one of the `https://`, `http://`, `www.` schemes (in
that priority order) is sliced off; links matching none are skipped. -/
def stripSchemes (link : String) : Option String :=
  if pyEndswith link ".pdf" || pyEndswith link "rss=1" || pyEndswith link "atom=1" then
    none
  else if pyStartswith link "https://" then some (pySlice link 8)
  else if pyStartswith link "http://" then some (pySlice link 7)
  else if pyStartswith link "www." then some (pySlice link 4)
  else none

/-- Model of `_preprocess_links` (src/file_processing.py): lower-case every
link, deduplicate keeping first occurrences (`OrderedDict.fromkeys`), then
run the filtering/stripping loop. -/
def preprocess_links (links : List String) : List String :=
  (dedupKeepFirst (links.map pyLower)).filterMap stripSchemes

end FileProcessing

namespace TextProcessing

/-- The compiled regex patterns of src/text_processing.py, modelled as
abstract pure predicates: a field applied to a line returns `true` exactly
when Python `pattern.search(line)` finds a match.  `sourceLink` models
`^Original page: (https?://|www.)\S+?$`; `protectedEmail` models
`\[email protected\]`; `imageNameA` models `(\[Image.*\]|^media/image/\S+$)`
and `imageNameB` the redundant second `^media/image/\S+$` pass;
`untranslatableA`, `untranslatableB`, `untranslatableC` model the three
untranslatable-noise shapes; `measurement` models the SI-unit pattern;
`hyperlink` models `^(https?://|www.)\S+?$`; `boilerplate` models the
unconditional `^Text-only page created by https://toolsyep.com` pass. -/
structure Patterns where
  sourceLink : String → Bool
  protectedEmail : String → Bool
  imageNameA : String → Bool
  imageNameB : String → Bool
  untranslatableA : String → Bool
  untranslatableB : String → Bool
  untranslatableC : String → Bool
  measurement : String → Bool
  hyperlink : String → Bool
  boilerplate : String → Bool

/-- pandas `series.replace(pattern, None, regex=True)`: an entry whose
string the pattern matches becomes null; null entries stay null; other
entries are unchanged. -/
def nullMatched (p : String → Bool) (xs : List (Option String)) : List (Option String) :=
  xs.map (fun x => x.bind (fun s => if p s then none else some s))

/-- Model of `_remove_emails` (src/text_processing.py). -/
def remove_emails (P : Patterns) (xs : List (Option String)) : List (Option String) :=
  nullMatched P.protectedEmail xs

/-- Model of `_remove_image_names` (src/text_processing.py): two successive
replace passes. -/
def remove_image_names (P : Patterns) (xs : List (Option String)) : List (Option String) :=
  nullMatched P.imageNameB (nullMatched P.imageNameA xs)

/-- Model of `_remove_untranslatables` (src/text_processing.py): three
successive replace passes. -/
def remove_untranslatables (P : Patterns) (xs : List (Option String)) : List (Option String) :=
  nullMatched P.untranslatableC (nullMatched P.untranslatableB (nullMatched P.untranslatableA xs))

/-- Model of `_remove_measurements` (src/text_processing.py). -/
def remove_measurements (P : Patterns) (xs : List (Option String)) : List (Option String) :=
  nullMatched P.measurement xs

/-- Model of `_remove_hyperlinks` (src/text_processing.py). -/
def remove_hyperlinks (P : Patterns) (xs : List (Option String)) : List (Option String) :=
  nullMatched P.hyperlink xs

/-- Python dict lookup `settings[key]` over the FilterSettings map,
modelled as an association list; `none` models the `KeyError` branch. -/
def lookupSetting (settings : List (String × Bool)) (k : String) : Option Bool :=
  (settings.find? (fun kv => kv.1 == k)).map (fun kv => kv.2)

/-- The closing stage `series.str.strip().replace("", None).dropna(how="any")`
of `process_scraped_text`: strip every surviving entry, null the now-empty
ones, and drop all nulls. -/
def finalStage (xs : List (Option String)) : List String :=
  xs.filterMap (fun x => x.bind (fun s => if pyStrip s = "" then none else some (pyStrip s)))

/-- Model of `process_scraped_text` (src/text_processing.py): strip all
lines, then per enabled setting (looked up in source order, a missing key
giving `none` for `KeyError`) null the matching lines, unconditionally null
the toolsyep boilerplate, and run the final strip/drop stage. -/
def process_scraped_text (P : Patterns) (scraped_text : List String)
    (settings : List (String × Bool)) : Option (List String) := do
  let series := scraped_text.map pyStrip
  let rep ← lookupSetting settings "Remove repetitions"
  let series := if rep then dedupKeepFirst series else series
  let src ← lookupSetting settings "Remove source links"
  let xs := series.map some
  let xs := if src then nullMatched P.sourceLink xs else xs
  let em ← lookupSetting settings "Remove protected emails"
  let xs := if em then remove_emails P xs else xs
  let im ← lookupSetting settings "Remove image names"
  let xs := if im then remove_image_names P xs else xs
  let un ← lookupSetting settings "Remove untranslatables"
  let xs := if un then remove_untranslatables P xs else xs
  let me ← lookupSetting settings "Remove measurements"
  let xs := if me then remove_measurements P xs else xs
  let hy ← lookupSetting settings "Remove hyperlinks"
  let xs := if hy then remove_hyperlinks P xs else xs
  let xs := nullMatched P.boilerplate xs
  return finalStage xs

/-- The sequence of pattern predicates actually applied by the gate section
of `process_scraped_text` for a given choice of settings, in application
order. -/
def gateList (P : Patterns) (src em im un me hy : Bool) : List (String → Bool) :=
  (if src then [P.sourceLink] else []) ++
  (if em then [P.protectedEmail] else []) ++
  (if im then [P.imageNameA, P.imageNameB] else []) ++
  (if un then [P.untranslatableA, P.untranslatableB, P.untranslatableC] else []) ++
  (if me then [P.measurement] else []) ++
  (if hy then [P.hyperlink] else []) ++
  [P.boilerplate]

/-- Sequential application of a list of nulling passes. -/
def applyGates (ps : List (String → Bool)) (xs : List (Option String)) : List (Option String) :=
  ps.foldl (fun ys p => nullMatched p ys) xs

end TextProcessing

/-- Patterns instance in which no regex ever matches, used to evaluate the
pipeline at concrete inputs. -/
def noMatchPatterns : TextProcessing.Patterns :=
  ⟨fun _ => false, fun _ => false, fun _ => false, fun _ => false, fun _ => false,
   fun _ => false, fun _ => false, fun _ => false, fun _ => false, fun _ => false⟩

/-- A FilterSettings map carrying exactly the seven required keys, all
enabled. -/
def allSettings : List (String × Bool) :=
  [("Remove repetitions", true), ("Remove source links", true),
   ("Remove protected emails", true), ("Remove image names", true),
   ("Remove untranslatables", true), ("Remove measurements", true),
   ("Remove hyperlinks", true)]

/-- Outcome of a selector-verification loop run under a finite interaction
script: the loop confirmed a selector, exited fatally on empty input
(`SystemExit`), or consumed the whole script without terminating. -/
inductive VerifyOutcome where
  | confirmed (sel : String)
  | exited
  | exhausted
deriving DecidableEq

namespace LinkScraping

/-- A fetched page as observed by the browser-variant fetcher for a fixed
CSS selector: `page_source` models `driver.page_source`, `readyState` the
value of `document.readyState`, and `elementText` the result of
`driver.find_element("css selector", css_selector)` — `some t` a found
element whose `.text` is `t`, `none` the `NoSuchElementException` /
`StaleElementReferenceException` raised while the element is absent. -/
structure Page where
  page_source : String
  readyState : String
  elementText : Option String

/-- The `_Errors.error_massages` table (src/link_scraping.py) in source
order: a literal content pattern paired with the reported error type. -/
def errorMessages : List (String × String) :=
  [("Sorry, Textise had a problem with that address", "Invalid URL!"),
   ("The site owner may have set restrictions that prevent you from accessing the site.",
    "Restricted Access!")]

/-- The classifier loop `for pattern, error_type in _Errors.error_massages`
of `_is_element_present`: the first pattern found in the page content wins. -/
def classify (content : String) : Option String :=
  (errorMessages.find? (fun pe => pyIn pe.1 content)).map (fun pe => pe.2)

/-- Truthiness of a found element under `if element:` — WebElement defines
no `__bool__`/`__len__`, so a returned element is always truthy. -/
def elementTruthy (_ : String) : Bool := true

/-- The readiness pre-wait of `_is_element_present`: the while loop spins
as long as the bot-challenge marker is in the page or `readyState` is not
`complete`; a page stuck in that state hangs the fetch forever. -/
def pageBlocked (p : Page) : Bool :=
  pyIn "Just a moment..." p.page_source || !(p.readyState == "complete")

/-- The timed polling loop of `_is_element_present`
(src/link_scraping.py, lines 101-115), with the wall-clock budget
(`TIMEOUT_LIMIT = 10`) modelled as poll fuel.  Each iteration re-queries
the selector; the exception handler for an absent element is `continue`,
restarting the loop WITHOUT reaching the classifier check below it, which
runs only when `find_element` returned without raising and the element is
falsy. -/
def findLoop (p : Page) : Nat → Option String × String
  | 0 => (none, "Timed out - element not found!")
  | fuel + 1 =>
    match p.elementText with
    | some t =>
      if elementTruthy t then (some t, "")
      else
        match classify p.page_source with
        | some err => (none, err)
        | none => findLoop p fuel
    | none => findLoop p fuel

/-- Model of `_is_element_present` (src/link_scraping.py): `none` models
the unbounded readiness wait never returning on a blocked page; otherwise
the timed polling loop decides the result. -/
def is_element_present (p : Page) (fuel : Nat) : Option (Option String × String) :=
  if pageBlocked p then none else some (findLoop p fuel)

/-- Model of `_scrape_urls` (src/link_scraping.py): one browser session
processes each URL in order (`pages url` being the page loaded from
`LINK_PREFIX + url`, queried with the confirmed selector); extracted lines
are appended behind an `Original page:` marker on success and
`https://url ↦ error` is recorded in the failure dict on failure.  The
dict is modelled as the insertion-ordered association list; `none` models
a page whose readiness wait hangs the whole batch. -/
def scrape_urls (pages : String → Page) (fuel : Nat) :
    List String → Option (List String × List (String × String))
  | [] => some ([], [])
  | url :: rest =>
    match is_element_present (pages url) fuel with
    | none => none
    | some (some t, _) =>
      (scrape_urls pages fuel rest).map
        (fun r => (("Original page: https://" ++ url) :: (pySplit t '\n' ++ r.1), r.2))
    | some (none, err) =>
      (scrape_urls pages fuel rest).map
        (fun r => (r.1, ("https://" ++ url, err) :: r.2))

/-- Model of `_verify_css_selector` (src/link_scraping.py), driven by a
script of user interactions: per loop iteration, the candidate selector
entered into `CSSSelectorInput` and the answer the user would give to
`ScrapedTextDisplay`.  `probe sel` is the `(element, error_type)` result of
`_is_element_present` for that candidate on the probe URL.  Returns the
outcome together with the list of texts passed to `ScrapedTextDisplay`, in
order.  `scraped` is the accumulator list `scraped_text`, initialized to
`[]` by the caller and never reset inside the loop. -/
def verify_css_selector (probe : String → Option String × String) (url : String) :
    List (String × Bool) → List String → VerifyOutcome × List (List String)
  | [], _ => (.exhausted, [])
  | (sel, ans) :: script, scraped =>
    if sel = "" then (.exited, [])
    else
      match probe sel with
      | (some t, _) =>
        let scraped2 := scraped ++ ("Original link: https://" ++ url ++ "\n") :: pySplit t '\n'
        if ans then (.confirmed sel, [scraped2])
        else
          let r := verify_css_selector probe url script scraped2
          (r.1, scraped2 :: r.2)
      | (none, _) => verify_css_selector probe url script scraped

end LinkScraping

namespace LinkScrapingRequests

/-- The parsed response of the HTTP-variant fetch for a fixed selector:
`selectOne` models `BeautifulSoup(html.content, "lxml").select_one(css_selector)`
— `none` when no element matches, `some txt` an element whose
`get_text()` is `txt`. -/
structure HttpResponse where
  selectOne : Option String

/-- Model of the success path of `_parse_url`
(src/link_scraping_requests.py): an absent element returns `[]`; otherwise
the element text is split on newlines and `element_text[1]` is compared
against the `"HOME"` sentinel, dropping the first two lines on a match.
The result is `none` when that index access raises an uncaught
`IndexError`, i.e. when the split has fewer than two entries. -/
def parse_url (r : HttpResponse) : Option (List String) :=
  match r.selectOne with
  | none => some []
  | some txt =>
    let element_text := pySplit txt '\n'
    if h : 1 < element_text.length then
      if element_text.get ⟨1, h⟩ = "HOME" then some (element_text.drop 2)
      else some element_text
    else none

/-- One completed pool task per schedule entry: the pool finishing task `i`
produces `(i, fetch url_i)`.  The schedule is the order in which the
thread pool happens to complete the submitted tasks. -/
def runSchedule (urls : List String) (fetch : String → List String)
    (sched : List Nat) : List (Nat × List String) :=
  sched.map (fun i => (i, fetch (urls.getD i "")))

/-- Model of `_scrape_urls_requests` (src/link_scraping_requests.py): all
URLs are submitted to the pool in list order; the pool completes them in
an arbitrary schedule; the collection loop walks the task list in
submission order, `task.result()` being the lookup of that task's
completion, and extends the aggregate text.  The return value is the bare
aggregate line list. -/
def scrape_urls_requests (urls : List String) (fetch : String → List String)
    (sched : List Nat) : List String :=
  (List.range urls.length).flatMap
    (fun i => ((runSchedule urls fetch sched).lookup i).getD [])

/-- Model of `_verify_css_selector` (src/link_scraping_requests.py).
`probe sel` is the outcome of `_parse_url` on the probe URL for candidate
`sel`: `some lines` its returned text, `none` a caught
`SelectorSyntaxError`.  The loop starts from the default candidate
`body > div > pre`; each scripted step carries the confirmation answer for
a shown display and the selector typed afterwards (empty input modelling
`SystemExit`).  Returns the outcome and, for each confirmation prompt, the
probed candidate and the exact text displayed. -/
def verify_css_selector_requests (probe : String → Option (List String)) :
    String → List (Bool × String) → VerifyOutcome × List (String × List String)
  | _, [] => (.exhausted, [])
  | sel, (ans, nextSel) :: script =>
    match probe sel with
    | some lines =>
      let text := lines.filter (fun l => !(l == ""))
      if text.isEmpty then
        if nextSel = "" then (.exited, [])
        else verify_css_selector_requests probe nextSel script
      else
        if ans then (.confirmed sel, [(sel, text)])
        else if nextSel = "" then (.exited, [(sel, text)])
        else
          let r := verify_css_selector_requests probe nextSel script
          (r.1, (sel, text) :: r.2)
    | none =>
      if nextSel = "" then (.exited, [])
      else verify_css_selector_requests probe nextSel script

end LinkScrapingRequests

set_option maxRecDepth 8192

/-- Spec-side collector for browser mode: the aggregate success lines, in
URL submission order — each successful URL contributes its `Original page:`
marker followed by its extracted lines. -/
def browserLines (pages : String → LinkScraping.Page) (fuel : Nat)
    (urls : List String) : List String :=
  urls.flatMap (fun url =>
    match LinkScraping.is_element_present (pages url) fuel with
    | some (some t, _) => ("Original page: https://" ++ url) :: pySplit t '\n'
    | _ => [])

/-- Spec-side collector for browser mode: the failure map, one entry per
failed URL carrying its reported error. -/
def browserFailures (pages : String → LinkScraping.Page) (fuel : Nat)
    (urls : List String) : List (String × String) :=
  urls.filterMap (fun url =>
    match LinkScraping.is_element_present (pages url) fuel with
    | some (none, e) => some ("https://" ++ url, e)
    | _ => none)

/-- Concrete two-page world for evaluating the orchestrators: the element
is absent on `bad.com` and found elsewhere. -/
def c6pages : String → LinkScraping.Page :=
  fun u =>
    if u == "bad.com" then ⟨"oops", "complete", none⟩
    else ⟨"", "complete", some "text line"⟩

/-- Probe world for the browser verification loop: candidate `s1` finds an
element with text `A`, candidate `s2` one with text `B`, anything else
times out. -/
def c10probe : String → Option String × String :=
  fun s =>
    if s == "s1" then (some "A", "")
    else if s == "s2" then (some "B", "")
    else (none, "Timed out - element not found!")

theorem toNat_ofNat_valid {n : Nat} (h : n.isValidChar) : (Char.ofNat n).toNat = n := by
  simp [Char.ofNat, h, Char.ofNatAux, Char.toNat, UInt32.toNat]

theorem char_toLower_idem (c : Char) : c.toLower.toLower = c.toLower := by
  simp only [Char.toLower]
  split
  · have hv : (c.toNat + 32).isValidChar := by
      rename_i h
      left
      omega
    rw [toNat_ofNat_valid hv]
    have : ¬(c.toNat + 32 ≥ 65 ∧ c.toNat + 32 ≤ 90) := by
      rename_i h
      omega
    rw [if_neg this]
  · rfl

theorem pyLower_idem (s : String) : pyLower (pyLower s) = pyLower s := by
  simp [pyLower, List.map_map, Function.comp_def, char_toLower_idem]

theorem pyLower_pySlice (s : String) (n : Nat) :
    pyLower (pySlice s n) = pySlice (pyLower s) n := by
  simp [pyLower, pySlice, List.map_drop]

theorem dedupKeepFirstAux_sublist (l : List String) :
    ∀ seen, (dedupKeepFirstAux seen l).Sublist l := by
  induction l with
  | nil => intro seen; simp [dedupKeepFirstAux]
  | cons x xs ih =>
    intro seen
    simp only [dedupKeepFirstAux]
    split
    · exact (ih seen).cons x
    · exact (ih (x :: seen)).cons₂ x

theorem mem_of_mem_dedupKeepFirstAux {x : String} {l seen : List String}
    (h : x ∈ dedupKeepFirstAux seen l) : x ∈ l :=
  (dedupKeepFirstAux_sublist l seen).mem h

theorem dedupKeepFirstAux_nodup (l : List String) :
    ∀ seen, (dedupKeepFirstAux seen l).Nodup ∧
      ∀ x ∈ dedupKeepFirstAux seen l, x ∉ seen := by
  induction l with
  | nil => intro seen; simp [dedupKeepFirstAux]
  | cons y ys ih =>
    intro seen
    simp only [dedupKeepFirstAux]
    split
    · rename_i hy
      exact ⟨(ih seen).1, (ih seen).2⟩
    · rename_i hy
      refine ⟨List.nodup_cons.2 ⟨fun hmem => ?_, (ih (y :: seen)).1⟩, ?_⟩
      · exact ((ih (y :: seen)).2 y hmem) (List.mem_cons_self y seen)
      · intro x hx
        rcases List.mem_cons.1 hx with rfl | hx'
        · exact hy
        · intro hseen
          exact ((ih (y :: seen)).2 x hx') (List.mem_cons_of_mem y hseen)

theorem dedupKeepFirst_nodup (l : List String) : (dedupKeepFirst l).Nodup :=
  (dedupKeepFirstAux_nodup l []).1

theorem dedupKeepFirst_sublist (l : List String) : (dedupKeepFirst l).Sublist l :=
  dedupKeepFirstAux_sublist l []

theorem dedupKeepFirstAux_eq_self {l : List String} :
    ∀ {seen}, l.Nodup → (∀ x ∈ l, x ∉ seen) → dedupKeepFirstAux seen l = l := by
  induction l with
  | nil => intro seen _ _; rfl
  | cons y ys ih =>
    intro seen hnd hsn
    have hy : y ∉ seen := hsn y (List.mem_cons_self y ys)
    simp only [dedupKeepFirstAux, if_neg hy]
    have hrest : ∀ x ∈ ys, x ∉ y :: seen := by
      intro x hx hc
      rcases List.mem_cons.1 hc with rfl | hc'
      · exact (List.nodup_cons.1 hnd).1 hx
      · exact hsn x (List.mem_cons_of_mem y hx) hc'
    rw [ih (List.nodup_cons.1 hnd).2 hrest]

theorem dedupKeepFirst_eq_self {l : List String} (h : l.Nodup) :
    dedupKeepFirst l = l :=
  dedupKeepFirstAux_eq_self h (by intro x _ hc; cases hc)

theorem mem_of_mem_dedupKeepFirst {x : String} {l : List String}
    (h : x ∈ dedupKeepFirst l) : x ∈ l :=
  (dedupKeepFirst_sublist l).mem h

theorem filterMap_eq_map_sublist (f : String → Option String) (l : List String) :
    ∃ s : List String, s.Sublist l ∧ (∀ x ∈ s, (f x).isSome) ∧
      l.filterMap f = s.map (fun x => (f x).getD x) := by
  induction l with
  | nil => exact ⟨[], List.Sublist.refl [], by simp, by simp⟩
  | cons a l ih =>
    obtain ⟨s, hs, hsome, heq⟩ := ih
    cases hfa : f a with
    | none =>
      exact ⟨s, hs.cons a, hsome, by rw [List.filterMap_cons_none hfa, heq]⟩
    | some b =>
      refine ⟨a :: s, hs.cons₂ a, ?_, ?_⟩
      · intro x hx
        rcases List.mem_cons.1 hx with rfl | hx'
        · simp [hfa]
        · exact hsome x hx'
      · rw [List.filterMap_cons_some hfa, heq]
        simp [hfa]

theorem pyLower_fixed_of_slice {y : String} (hy : pyLower y = y) (n : Nat) :
    pyLower (pySlice y n) = pySlice y n := by
  rw [pyLower_pySlice, hy]

theorem stripSchemes_lower {y x : String} (hy : pyLower y = y)
    (hx : FileProcessing.stripSchemes y = some x) : pyLower x = x := by
  unfold FileProcessing.stripSchemes at hx
  split at hx
  · cases hx
  · split at hx
    · cases hx
      exact pyLower_fixed_of_slice hy 8
    · split at hx
      · cases hx
        exact pyLower_fixed_of_slice hy 7
      · split at hx
        · cases hx
          exact pyLower_fixed_of_slice hy 4
        · cases hx

theorem preprocess_links_lower_fixed {links : List String} :
    ∀ x ∈ FileProcessing.preprocess_links links, pyLower x = x := by
  intro x hx
  unfold FileProcessing.preprocess_links at hx
  obtain ⟨y, hy, hfy⟩ := List.mem_filterMap.1 hx
  obtain ⟨z, _, rfl⟩ := List.mem_map.1 (mem_of_mem_dedupKeepFirst hy)
  exact stripSchemes_lower (pyLower_idem z) hfy

/-- Claim C3 counterexample: the normalizer can output two equal entries.
Deduplication happens on the lowercased raw links, before scheme stripping,
and stripping the two distinct schemes of `https://a.com` and
`http://a.com` yields `a.com` twice. -/
theorem C3_counterexample :
    FileProcessing.preprocess_links ["https://a.com", "http://a.com"] = ["a.com", "a.com"] ∧
    ¬ (FileProcessing.preprocess_links ["https://a.com", "http://a.com"]).Nodup := by
  constructor
  · decide
  · decide

/-- Claim C3 (amended): deduplication (case-insensitive, first occurrence
kept) is applied to the lowercased links before scheme stripping: the
deduplicated intermediate list has no duplicates, and the output is, in
order, the stripped image of a subsequence of it (so survivors keep their
first-seen relative order); stripping can merge two distinct links, so the
final output itself may contain duplicates. -/
theorem C3_dedup_before_strip (links : List String) :
    (dedupKeepFirst (links.map pyLower)).Nodup ∧
    ∃ survivors : List String, survivors.Sublist (dedupKeepFirst (links.map pyLower)) ∧
      survivors.Nodup ∧
      (∀ x ∈ survivors, (FileProcessing.stripSchemes x).isSome) ∧
      FileProcessing.preprocess_links links =
        survivors.map (fun x => (FileProcessing.stripSchemes x).getD x) := by
  obtain ⟨s, hs, hsome, heq⟩ :=
    filterMap_eq_map_sublist FileProcessing.stripSchemes (dedupKeepFirst (links.map pyLower))
  exact ⟨dedupKeepFirst_nodup _, s, hs, hs.nodup (dedupKeepFirst_nodup _), hsome, heq⟩

/-- Claim C4 counterexample: the normalizer is not idempotent.  The output
`["a.com"]` has its scheme already stripped, so a second run matches no
recognized scheme and drops the entry entirely. -/
theorem C4_counterexample :
    FileProcessing.preprocess_links ["https://a.com"] = ["a.com"] ∧
    FileProcessing.preprocess_links (FileProcessing.preprocess_links ["https://a.com"]) = [] := by
  constructor
  · decide
  · decide

/-- Claim C4 (amended): normalization is not idempotent.  A second run
re-deduplicates the first run's output and keeps only the entries that
still begin with a recognized scheme (possible only for doubled-scheme
inputs), stripping them again; all other entries are dropped, so an
already-normalized set generally normalizes to a smaller set, not to
itself.  Formally, the second run is exactly dedup-then-strip applied to
the output, lowercasing being the identity there. -/
theorem C4_not_idempotent (links : List String) :
    FileProcessing.preprocess_links (FileProcessing.preprocess_links links) =
      (dedupKeepFirst (FileProcessing.preprocess_links links)).filterMap
        FileProcessing.stripSchemes := by
  have h0 : FileProcessing.preprocess_links (FileProcessing.preprocess_links links) =
      (dedupKeepFirst ((FileProcessing.preprocess_links links).map pyLower)).filterMap
        FileProcessing.stripSchemes := rfl
  have hmap : (FileProcessing.preprocess_links links).map pyLower =
      FileProcessing.preprocess_links links := by
    have hcongr : (FileProcessing.preprocess_links links).map pyLower =
        (FileProcessing.preprocess_links links).map id :=
      List.map_congr_left (fun a ha => preprocess_links_lower_fixed a ha)
    rw [hcongr, List.map_id]
  rw [h0, hmap]

/-- Claim C5 counterexample: output entries can be empty (a bare
`https://` input strips to the empty string) and can still begin with a
recognized scheme (a doubled scheme `https://www.a.com` strips only the
first one, leaving `www.a.com`). -/
theorem C5_counterexample :
    FileProcessing.preprocess_links ["https://", "https://www.a.com"] = ["", "www.a.com"] ∧
    "" ∈ FileProcessing.preprocess_links ["https://", "https://www.a.com"] ∧
    pyStartswith "www.a.com" "www." = true := by
  refine ⟨by decide, by decide, by decide⟩

/-- Claim C5 (amended): every entry of the normalizer's output is obtained
from some raw input link by lowercasing it and stripping exactly one
recognized scheme in priority order (suffix-filtered and scheme-less links
are dropped); the resulting entry may nevertheless be empty or may still
begin with a recognized scheme, as the counterexample shows. -/
theorem C5_output_entries (links : List String) :
    (FileProcessing.preprocess_links links).Forall
      (fun x => ∃ y, y ∈ links ∧ FileProcessing.stripSchemes (pyLower y) = some x) := by
  rw [List.forall_iff_forall_mem]
  intro x hx
  unfold FileProcessing.preprocess_links at hx
  obtain ⟨y, hy, hfy⟩ := List.mem_filterMap.1 hx
  obtain ⟨z, hz, rfl⟩ := List.mem_map.1 (mem_of_mem_dedupKeepFirst hy)
  exact ⟨z, hz, hfy⟩

theorem dropWhile_head_false {w : Char → Bool} {l : List Char} {c : Char} {cs : List Char}
    (h : l.dropWhile w = c :: cs) : w c = false := by
  induction l with
  | nil => cases h
  | cons a l ih =>
    rw [List.dropWhile_cons] at h
    split at h
    · exact ih h
    · cases h
      rename_i hc
      simp at hc
      exact hc

theorem dropWhile_dropWhile (w : Char → Bool) (l : List Char) :
    (l.dropWhile w).dropWhile w = l.dropWhile w := by
  cases h : l.dropWhile w with
  | nil => rfl
  | cons c cs =>
    rw [List.dropWhile_cons, if_neg]
    simp [dropWhile_head_false h]

theorem pyStrip_idem (s : String) : pyStrip (pyStrip s) = pyStrip s := by
  unfold pyStrip
  apply congrArg String.mk
  show ((((List.dropWhile Char.isWhitespace
      (((s.data.dropWhile Char.isWhitespace).reverse.dropWhile Char.isWhitespace).reverse)).reverse).dropWhile
        Char.isWhitespace).reverse) = _
  have hD : List.dropWhile Char.isWhitespace
      (((s.data.dropWhile Char.isWhitespace).reverse.dropWhile Char.isWhitespace).reverse) =
      ((s.data.dropWhile Char.isWhitespace).reverse.dropWhile Char.isWhitespace).reverse := by
    cases hcase : ((s.data.dropWhile Char.isWhitespace).reverse.dropWhile Char.isWhitespace).reverse with
    | nil => rfl
    | cons c cs =>
      have hpre : (c :: cs) <+: s.data.dropWhile Char.isWhitespace := by
        rw [← hcase]
        simpa using
          List.reverse_prefix.2
            (List.dropWhile_suffix
              (l := (s.data.dropWhile Char.isWhitespace).reverse) Char.isWhitespace)
      obtain ⟨r, hr⟩ := hpre
      rw [List.dropWhile_cons, if_neg]
      simp [dropWhile_head_false hr.symm]
  rw [hD, List.reverse_reverse, dropWhile_dropWhile]

theorem applyGates_eq_map (ps : List (String → Bool)) (xs : List (Option String)) :
    TextProcessing.applyGates ps xs =
      xs.map (fun x => x.bind (fun s => if ps.all (fun p => !p s) then some s else none)) := by
  induction ps generalizing xs with
  | nil =>
    simp [TextProcessing.applyGates]
  | cons p ps ih =>
    have h1 : TextProcessing.applyGates (p :: ps) xs =
        TextProcessing.applyGates ps (TextProcessing.nullMatched p xs) := rfl
    rw [h1, ih, TextProcessing.nullMatched, List.map_map]
    apply List.map_congr_left
    intro x _
    cases x with
    | none => rfl
    | some s =>
      by_cases hp : p s
      · simp [hp, Function.comp]
      · simp [hp, Function.comp]

theorem filterMap_partial_id_sublist {f : String → Option String} {l : List String}
    (h : ∀ x ∈ l, ∀ t, f x = some t → t = x) : (l.filterMap f).Sublist l := by
  induction l with
  | nil => simp
  | cons a l ih =>
    have ih' := ih (fun x hx => h x (List.mem_cons_of_mem a hx))
    cases hfa : f a with
    | none =>
      rw [List.filterMap_cons_none hfa]
      exact ih'.cons a
    | some b =>
      have hb : b = a := h a (List.mem_cons_self a l) b hfa
      rw [List.filterMap_cons_some hfa, hb]
      exact ih'.cons₂ a

theorem filterMap_id_of_mem {f : String → Option String} {l : List String}
    (h : ∀ x ∈ l, f x = some x) : l.filterMap f = l := by
  induction l with
  | nil => rfl
  | cons a l ih =>
    rw [List.filterMap_cons_some (h a (List.mem_cons_self a l)),
      ih (fun x hx => h x (List.mem_cons_of_mem a hx))]

theorem finalStage_applyGates_eq_filterMap (ps : List (String → Bool)) (base : List String) :
    TextProcessing.finalStage (TextProcessing.applyGates ps (base.map some)) =
      base.filterMap (fun s =>
        if ps.all (fun p => !p s) then
          (if pyStrip s = "" then none else some (pyStrip s))
        else none) := by
  rw [applyGates_eq_map, List.map_map]
  unfold TextProcessing.finalStage
  rw [List.filterMap_map]
  congr 1
  funext s
  by_cases hall : (ps.all (fun p => !p s)) = true
  · simp only [Function.comp, Option.some_bind, if_pos hall]
  · simp only [Function.comp, Option.some_bind, if_neg hall, Option.none_bind]

theorem out_facts (ps : List (String → Bool)) (base : List String)
    (hfix : ∀ s ∈ base, pyStrip s = s) :
    (TextProcessing.finalStage (TextProcessing.applyGates ps (base.map some))).Sublist base ∧
    ∀ t ∈ TextProcessing.finalStage (TextProcessing.applyGates ps (base.map some)),
      pyStrip t = t ∧ t ≠ "" ∧ ps.all (fun p => !p t) = true := by
  rw [finalStage_applyGates_eq_filterMap]
  constructor
  · apply filterMap_partial_id_sublist
    intro x hx t ht
    rw [hfix x hx] at ht
    split at ht
    · split at ht
      · cases ht
      · cases ht
        rfl
    · cases ht
  · intro t htmem
    obtain ⟨s, hs, hsieve⟩ := List.mem_filterMap.1 htmem
    rw [hfix s hs] at hsieve
    split at hsieve
    · split at hsieve
      · cases hsieve
      · rename_i hall hne
        injection hsieve with heq
        rw [← heq]
        exact ⟨hfix s hs, hne, hall⟩
    · cases hsieve

theorem finalStage_gates_id (ps : List (String → Bool)) (out : List String)
    (hclean : ∀ t ∈ out, pyStrip t = t ∧ t ≠ "" ∧ ps.all (fun p => !p t) = true) :
    TextProcessing.finalStage (TextProcessing.applyGates ps (out.map some)) = out := by
  rw [finalStage_applyGates_eq_filterMap]
  apply filterMap_id_of_mem
  intro x hx
  obtain ⟨h1, h2, h3⟩ := hclean x hx
  rw [if_pos h3, h1, if_neg h2]

theorem process_eq (P : TextProcessing.Patterns) (text : List String)
    (settings : List (String × Bool)) (rep src em im un me hy : Bool)
    (h1 : TextProcessing.lookupSetting settings "Remove repetitions" = some rep)
    (h2 : TextProcessing.lookupSetting settings "Remove source links" = some src)
    (h3 : TextProcessing.lookupSetting settings "Remove protected emails" = some em)
    (h4 : TextProcessing.lookupSetting settings "Remove image names" = some im)
    (h5 : TextProcessing.lookupSetting settings "Remove untranslatables" = some un)
    (h6 : TextProcessing.lookupSetting settings "Remove measurements" = some me)
    (h7 : TextProcessing.lookupSetting settings "Remove hyperlinks" = some hy) :
    TextProcessing.process_scraped_text P text settings =
      some (TextProcessing.finalStage (TextProcessing.applyGates
        (TextProcessing.gateList P src em im un me hy)
        ((if rep then dedupKeepFirst (text.map pyStrip) else text.map pyStrip).map some))) := by
  simp only [TextProcessing.process_scraped_text, h1, h2, h3, h4, h5, h6, h7,
    Option.bind_eq_bind, Option.some_bind, Option.pure_def]
  cases src <;> cases em <;> cases im <;> cases un <;> cases me <;> cases hy <;> rfl

/-- Claim C2: the text-normalization pipeline is idempotent.  For every
choice of regex predicates, every input line list and every fixed
FilterSettings map under which the pipeline succeeds, re-running
`process_scraped_text` on its own output with the same settings returns
exactly that output again. -/
theorem C2_process_idempotent (P : TextProcessing.Patterns) (text : List String)
    (settings : List (String × Bool)) (out : List String)
    (h : TextProcessing.process_scraped_text P text settings = some out) :
    TextProcessing.process_scraped_text P out settings = some out := by
  cases h1 : TextProcessing.lookupSetting settings "Remove repetitions" with
  | none => simp [TextProcessing.process_scraped_text, h1] at h
  | some rep =>
  cases h2 : TextProcessing.lookupSetting settings "Remove source links" with
  | none => simp [TextProcessing.process_scraped_text, h1, h2] at h
  | some src =>
  cases h3 : TextProcessing.lookupSetting settings "Remove protected emails" with
  | none => simp [TextProcessing.process_scraped_text, h1, h2, h3] at h
  | some em =>
  cases h4 : TextProcessing.lookupSetting settings "Remove image names" with
  | none => simp [TextProcessing.process_scraped_text, h1, h2, h3, h4] at h
  | some im =>
  cases h5 : TextProcessing.lookupSetting settings "Remove untranslatables" with
  | none => simp [TextProcessing.process_scraped_text, h1, h2, h3, h4, h5] at h
  | some un =>
  cases h6 : TextProcessing.lookupSetting settings "Remove measurements" with
  | none => simp [TextProcessing.process_scraped_text, h1, h2, h3, h4, h5, h6] at h
  | some me =>
  cases h7 : TextProcessing.lookupSetting settings "Remove hyperlinks" with
  | none => simp [TextProcessing.process_scraped_text, h1, h2, h3, h4, h5, h6, h7] at h
  | some hy =>
  rw [process_eq P text settings rep src em im un me hy h1 h2 h3 h4 h5 h6 h7] at h
  injection h with h
  have hfix : ∀ s ∈ (if rep then dedupKeepFirst (text.map pyStrip) else text.map pyStrip),
      pyStrip s = s := by
    intro s hs
    have hs' : s ∈ text.map pyStrip := by
      cases rep
      · simpa using hs
      · exact mem_of_mem_dedupKeepFirst (by simpa using hs)
    obtain ⟨t, _, rfl⟩ := List.mem_map.1 hs'
    exact pyStrip_idem t
  obtain ⟨hsub, hmem⟩ := out_facts (TextProcessing.gateList P src em im un me hy)
    (if rep then dedupKeepFirst (text.map pyStrip) else text.map pyStrip) hfix
  rw [h] at hsub hmem
  have hmapstrip : out.map pyStrip = out := by
    have hcongr : out.map pyStrip = out.map id :=
      List.map_congr_left (fun t ht => (hmem t ht).1)
    rw [hcongr, List.map_id]
  have hbase2 : (if rep then dedupKeepFirst (out.map pyStrip) else out.map pyStrip) = out := by
    cases rep
    · simpa using hmapstrip
    · have hnd : out.Nodup := by
        refine hsub.nodup ?_
        simpa using dedupKeepFirst_nodup (text.map pyStrip)
      simp only [if_pos]
      rw [hmapstrip]
      exact dedupKeepFirst_eq_self hnd
  rw [process_eq P out settings rep src em im un me hy h1 h2 h3 h4 h5 h6 h7, hbase2,
    finalStage_gates_id (TextProcessing.gateList P src em im un me hy) out hmem]

theorem C2_process_idempotent_witness :
    TextProcessing.process_scraped_text noMatchPatterns ["a", "a", " b "] allSettings =
      some ["a", "b"] ∧
    TextProcessing.process_scraped_text noMatchPatterns ["a", "b"] allSettings =
      some ["a", "b"] :=
  have h : TextProcessing.process_scraped_text noMatchPatterns ["a", "a", " b "] allSettings =
      some ["a", "b"] := by decide
  ⟨h, C2_process_idempotent noMatchPatterns ["a", "a", " b "] allSettings ["a", "b"] h⟩

/-- Claim C9: whenever the FilterSettings map contains the seven required
filter keys (spec names remove_repetitions, remove_image_names,
remove_protected_emails, remove_untranslatables, remove_measurements,
remove_hyperlinks, remove_source_links; realized in the source as the
checkbox labels looked up by `process_scraped_text`), every settings lookup
of the pipeline succeeds: the KeyError branch is unreachable and the
pipeline returns a result. -/
theorem C9_settings_lookups_succeed (P : TextProcessing.Patterns) (text : List String)
    (settings : List (String × Bool))
    (h : ∀ k ∈ ["Remove repetitions", "Remove source links", "Remove protected emails",
        "Remove image names", "Remove untranslatables", "Remove measurements",
        "Remove hyperlinks"], (TextProcessing.lookupSetting settings k).isSome) :
    (TextProcessing.process_scraped_text P text settings).isSome := by
  obtain ⟨rep, h1⟩ := Option.isSome_iff_exists.1 (h "Remove repetitions" (by simp))
  obtain ⟨src, h2⟩ := Option.isSome_iff_exists.1 (h "Remove source links" (by simp))
  obtain ⟨em, h3⟩ := Option.isSome_iff_exists.1 (h "Remove protected emails" (by simp))
  obtain ⟨im, h4⟩ := Option.isSome_iff_exists.1 (h "Remove image names" (by simp))
  obtain ⟨un, h5⟩ := Option.isSome_iff_exists.1 (h "Remove untranslatables" (by simp))
  obtain ⟨me, h6⟩ := Option.isSome_iff_exists.1 (h "Remove measurements" (by simp))
  obtain ⟨hy, h7⟩ := Option.isSome_iff_exists.1 (h "Remove hyperlinks" (by simp))
  rw [process_eq P text settings rep src em im un me hy h1 h2 h3 h4 h5 h6 h7]
  rfl

theorem C9_settings_lookups_succeed_witness :
    (TextProcessing.process_scraped_text noMatchPatterns ["x"] allSettings).isSome :=
  C9_settings_lookups_succeed noMatchPatterns ["x"] allSettings (by decide)

/-- Claim C1 (code bug witness): on a page whose content matches the
restricted-access classifier pattern while the selector element is absent,
the browser-variant polling loop returns the TimedOut failure and never
consults the classifier — the exception handler's `continue` jumps past
the pattern check, although the classifier itself maps this very content
to "Restricted Access!". -/
theorem C1_restricted_access_misclassified :
    LinkScraping.is_element_present
      { page_source := "The site owner may have set restrictions that prevent you from accessing the site.",
        readyState := "complete", elementText := none } 10 =
      some (none, "Timed out - element not found!") ∧
    LinkScraping.classify
      "The site owner may have set restrictions that prevent you from accessing the site." =
      some "Restricted Access!" := by
  constructor
  · decide
  · decide

/-- Claim C8 (code bug witness): the HTTP-variant parser crashes with an
uncaught IndexError (`none`) on an element whose text is a single line,
while multi-line texts behave as specified: the first two lines are
dropped exactly when the second line is the "HOME" sentinel, and an absent
element yields the empty line sequence. -/
theorem C8_single_line_crash :
    LinkScrapingRequests.parse_url ⟨some "hello"⟩ = none ∧
    LinkScrapingRequests.parse_url ⟨some "nav\nHOME\nbody text"⟩ = some ["body text"] ∧
    LinkScrapingRequests.parse_url ⟨some "line one\nline two"⟩ = some ["line one", "line two"] ∧
    LinkScrapingRequests.parse_url ⟨none⟩ = some [] := by
  refine ⟨by decide, by decide, by decide, rfl⟩

theorem lookup_runSchedule (urls : List String) (fetch : String → List String) :
    ∀ (sched : List Nat) (i : Nat), i ∈ sched →
      (LinkScrapingRequests.runSchedule urls fetch sched).lookup i =
        some (fetch (urls.getD i "")) := by
  intro sched
  induction sched with
  | nil =>
    intro i hi
    cases hi
  | cons j rest ih =>
    intro i hi
    show List.lookup i
      ((j, fetch (urls.getD j "")) :: LinkScrapingRequests.runSchedule urls fetch rest) = _
    rw [List.lookup_cons]
    by_cases hij : i = j
    · subst hij
      simp
    · have hbeq : (i == j) = false := beq_false_of_ne hij
      rw [hbeq]
      exact ih i (by
        rcases List.mem_cons.1 hi with h | h
        · exact absurd h hij
        · exact h)

theorem range_flatMap_getD (fetch : String → List String) :
    ∀ urls : List String,
      (List.range urls.length).flatMap (fun i => fetch (urls.getD i "")) =
        urls.flatMap fetch := by
  intro urls
  induction urls with
  | nil => rfl
  | cons u us ih =>
    show (List.range (us.length + 1)).flatMap (fun i => fetch ((u :: us).getD i "")) = _
    rw [List.range_succ_eq_map, List.flatMap_cons, List.flatMap_map]
    simp only [List.getD_cons_zero, List.getD_cons_succ]
    rw [ih, List.flatMap_cons]

theorem flatMap_congr_mem {α β : Type} {l : List α} {f g : α → List β}
    (h : ∀ a ∈ l, f a = g a) : l.flatMap f = l.flatMap g := by
  induction l with
  | nil => rfl
  | cons a l ih =>
    rw [List.flatMap_cons, List.flatMap_cons, h a (List.mem_cons_self a l),
      ih (fun x hx => h x (List.mem_cons_of_mem a hx))]

theorem scrape_requests_eq_flatMap (urls : List String) (fetch : String → List String)
    (sched : List Nat) (hperm : sched.Perm (List.range urls.length)) :
    LinkScrapingRequests.scrape_urls_requests urls fetch sched = urls.flatMap fetch := by
  unfold LinkScrapingRequests.scrape_urls_requests
  rw [← range_flatMap_getD fetch urls]
  apply flatMap_congr_mem
  intro i hi
  rw [lookup_runSchedule urls fetch sched i (hperm.mem_iff.2 hi)]
  rfl

theorem scrape_urls_eq (pages : String → LinkScraping.Page) (fuel : Nat) :
    ∀ urls : List String, (∀ u ∈ urls, LinkScraping.pageBlocked (pages u) = false) →
      LinkScraping.scrape_urls pages fuel urls =
        some (browserLines pages fuel urls, browserFailures pages fuel urls) := by
  intro urls
  induction urls with
  | nil => intro _; rfl
  | cons url rest ih =>
    intro hready
    have hurl : LinkScraping.pageBlocked (pages url) = false :=
      hready url (List.mem_cons_self url rest)
    have hiep : LinkScraping.is_element_present (pages url) fuel =
        some (LinkScraping.findLoop (pages url) fuel) := by
      simp [LinkScraping.is_element_present, hurl]
    have hrest := ih (fun u hu => hready u (List.mem_cons_of_mem url hu))
    rcases hfl : LinkScraping.findLoop (pages url) fuel with ⟨eopt, err⟩
    cases eopt with
    | some t =>
      simp only [LinkScraping.scrape_urls, hiep, hfl, hrest, Option.map_some,
        browserLines, browserFailures, List.flatMap_cons, List.filterMap_cons]
      simp [hiep, hfl]
    | none =>
      simp only [LinkScraping.scrape_urls, hiep, hfl, hrest, Option.map_some,
        browserLines, browserFailures, List.flatMap_cons, List.filterMap_cons]
      simp [hiep, hfl]

/-- Claim C6 counterexample: in HTTP mode the orchestrator's entire return
value is the bare aggregate line list.  A one-URL batch whose element is
absent (its per-URL fetch yields `[]`) returns exactly the same value as
the empty batch: the failed URL and any ErrorKind for it are recorded
nowhere in what is returned — there is no failure map in this mode. -/
theorem C6_counterexample :
    LinkScrapingRequests.scrape_urls_requests ["a.com"] (fun _ => []) [0] = [] ∧
    LinkScrapingRequests.scrape_urls_requests [] (fun _ => []) [] = [] := by
  exact ⟨rfl, rfl⟩

/-- Claim C6 (amended): a failed URL never aborts the batch in either
mode.  In browser mode every URL is processed: the returned pair carries
the aggregate success lines in submission order together with the failure
map holding one entry per failed URL with its reported error.  In HTTP
mode there is no failure map: the orchestrator returns only the aggregate
line list (the concatenation of every URL's fetched lines, an
element-absent URL contributing `[]`), for every pool completion order. -/
theorem C6_failure_collection (pages : String → LinkScraping.Page) (fuel : Nat)
    (urls : List String) (fetch : String → List String) (sched : List Nat)
    (hready : ∀ u ∈ urls, LinkScraping.pageBlocked (pages u) = false)
    (hperm : sched.Perm (List.range urls.length)) :
    LinkScraping.scrape_urls pages fuel urls =
      some (browserLines pages fuel urls, browserFailures pages fuel urls) ∧
    LinkScrapingRequests.scrape_urls_requests urls fetch sched = urls.flatMap fetch :=
  ⟨scrape_urls_eq pages fuel urls hready, scrape_requests_eq_flatMap urls fetch sched hperm⟩

theorem C6_failure_collection_witness :
    LinkScraping.scrape_urls c6pages 10 ["good.com", "bad.com"] =
      some (browserLines c6pages 10 ["good.com", "bad.com"],
            browserFailures c6pages 10 ["good.com", "bad.com"]) ∧
    LinkScrapingRequests.scrape_urls_requests ["good.com", "bad.com"]
        (fun u => [u]) [1, 0] =
      ["good.com", "bad.com"].flatMap (fun u => [u]) :=
  C6_failure_collection c6pages 10 ["good.com", "bad.com"] (fun u => [u]) [1, 0]
    (by decide) (by decide)

/-- Claim C7: in HTTP mode, for every batch submitted in list order and
every completion order of the concurrent fetches (any permutation of the
task indices), the aggregate text equals the concatenation of each URL's
extracted lines in submission order. -/
theorem C7_submission_order (urls : List String) (fetch : String → List String)
    (sched : List Nat) (hperm : sched.Perm (List.range urls.length)) :
    LinkScrapingRequests.scrape_urls_requests urls fetch sched = urls.flatMap fetch :=
  scrape_requests_eq_flatMap urls fetch sched hperm

theorem C7_submission_order_witness :
    LinkScrapingRequests.scrape_urls_requests ["a", "b"] (fun u => [u]) [1, 0] =
      ["a", "b"] := by
  rw [C7_submission_order ["a", "b"] (fun u => [u]) [1, 0] (by decide)]
  rfl

/-- Claim C10 counterexample: in the browser-variant verification loop the
accumulator is never reset, so after candidate `s1` (text `A`) is
rejected, the confirmation prompt for candidate `s2` still displays `A`:
lines of a previously rejected candidate appear in a later confirmation
prompt, and the second prompt is not just the current candidate's lines
behind one source-link line. -/
theorem C10_counterexample :
    LinkScraping.verify_css_selector c10probe "u" [("s1", false), ("s2", true)] [] =
      (.confirmed "s2",
        [["Original link: https://u\n", "A"],
         ["Original link: https://u\n", "A", "Original link: https://u\n", "B"]]) ∧
    "A" ∈ (LinkScraping.verify_css_selector c10probe "u"
        [("s1", false), ("s2", true)] []).2.getD 1 [] := by
  exact ⟨by decide, by decide⟩

theorem verify_browser_displays (probe : String → Option String × String) (url : String) :
    ∀ (script : List (String × Bool)) (acc : List String),
      List.Chain' (fun a b => a <+: b)
        (LinkScraping.verify_css_selector probe url script acc).2 ∧
      ∀ d ∈ (LinkScraping.verify_css_selector probe url script acc).2, acc <+: d := by
  intro script
  induction script with
  | nil =>
    intro acc
    constructor
    · exact List.chain'_nil
    · intro d hd
      simp [LinkScraping.verify_css_selector] at hd
  | cons hd script ih =>
    rcases hd with ⟨sel, ans⟩
    intro acc
    by_cases hsel : sel = ""
    · simp only [LinkScraping.verify_css_selector, if_pos hsel]
      exact ⟨List.chain'_nil, by intro d hd; cases hd⟩
    · rcases hp : probe sel with ⟨eopt, err⟩
      cases eopt with
      | none =>
        simp only [LinkScraping.verify_css_selector, if_neg hsel, hp]
        exact ih acc
      | some t =>
        by_cases han : ans = true
        · simp only [LinkScraping.verify_css_selector, if_neg hsel, hp, if_pos han]
          constructor
          · exact List.chain'_singleton _
          · intro d hd
            rcases List.mem_singleton.1 hd with rfl
            exact List.prefix_append acc _
        · simp only [LinkScraping.verify_css_selector, if_neg hsel, hp, if_neg han]
          obtain ⟨ihc, ihf⟩ :=
            ih (acc ++ ("Original link: https://" ++ url ++ "\n") :: pySplit t '\n')
          constructor
          · rw [List.chain'_cons']
            refine ⟨?_, ihc⟩
            intro b hb
            exact ihf b (List.mem_of_mem_head? hb)
          · intro d hd
            rcases List.mem_cons.1 hd with rfl | hd'
            · exact List.prefix_append acc _
            · exact (List.prefix_append acc _).trans (ihf d hd')

theorem verify_requests_displays (probe : String → Option (List String)) :
    ∀ (script : List (Bool × String)) (sel : String),
      ∀ sd ∈ (LinkScrapingRequests.verify_css_selector_requests probe sel script).2,
        ∃ lines, probe sd.1 = some lines ∧
          sd.2 = lines.filter (fun l => !(l == "")) ∧ sd.2 ≠ [] := by
  intro script
  induction script with
  | nil =>
    intro sel sd hsd
    simp [LinkScrapingRequests.verify_css_selector_requests] at hsd
  | cons hd script ih =>
    rcases hd with ⟨ans, nextSel⟩
    intro sel sd hsd
    rcases hp : probe sel with _ | lines
    · simp only [LinkScrapingRequests.verify_css_selector_requests, hp] at hsd
      by_cases hnext : nextSel = ""
      · simp only [if_pos hnext] at hsd
        cases hsd
      · simp only [if_neg hnext] at hsd
        exact ih nextSel sd hsd
    · simp only [LinkScrapingRequests.verify_css_selector_requests, hp] at hsd
      by_cases hempty : (lines.filter (fun l => !(l == ""))).isEmpty = true
      · simp only [if_pos hempty] at hsd
        by_cases hnext : nextSel = ""
        · simp only [if_pos hnext] at hsd
          cases hsd
        · simp only [if_neg hnext] at hsd
          exact ih nextSel sd hsd
      · simp only [if_neg hempty] at hsd
        have hne : lines.filter (fun l => !(l == "")) ≠ [] := by
          intro hnil
          exact hempty (by rw [hnil]; rfl)
        by_cases han : ans = true
        · simp only [if_pos han] at hsd
          rcases List.mem_singleton.1 hsd with rfl
          exact ⟨lines, hp, rfl, hne⟩
        · simp only [if_neg han] at hsd
          by_cases hnext : nextSel = ""
          · simp only [if_pos hnext] at hsd
            rcases List.mem_singleton.1 hsd with rfl
            exact ⟨lines, hp, rfl, hne⟩
          · simp only [if_neg hnext] at hsd
            rcases List.mem_cons.1 hsd with rfl | hsd'
            · exact ⟨lines, hp, rfl, hne⟩
            · exact ih nextSel sd hsd'

/-- Claim C10 (amended): in the browser variant the extraction accumulator
is never reset, so each confirmation prompt extends the previous one —
every displayed text has the caller's accumulator as a prefix and the
sequence of prompts is monotone under the prefix order (rejected
candidates' lines persist, each new successful probe appending one
source-link line plus its lines, as the counterexample exhibits).  In the
HTTP variant each confirmation prompt presents exactly the current
candidate's probe result filtered to its non-empty lines, with no
source-link line and no text from previously rejected candidates. -/
theorem C10_confirmation_displays (probe : String → Option String × String)
    (url : String) (script : List (String × Bool)) (acc : List String)
    (probeR : String → Option (List String)) (selR : String)
    (scriptR : List (Bool × String)) :
    (List.Chain' (fun a b => a <+: b)
        (LinkScraping.verify_css_selector probe url script acc).2 ∧
      (LinkScraping.verify_css_selector probe url script acc).2.Forall
        (fun d => acc <+: d)) ∧
    (LinkScrapingRequests.verify_css_selector_requests probeR selR scriptR).2.Forall
      (fun sd => ∃ lines, probeR sd.1 = some lines ∧
        sd.2 = lines.filter (fun l => !(l == "")) ∧ sd.2 ≠ []) := by
  refine ⟨⟨(verify_browser_displays probe url script acc).1, ?_⟩, ?_⟩
  · rw [List.forall_iff_forall_mem]
    exact (verify_browser_displays probe url script acc).2
  · rw [List.forall_iff_forall_mem]
    exact verify_requests_displays probeR scriptR selR
